import Mathlib

/-!
Verification of the ng5Gdata capture-analysis pipeline.

The Python sources are shallowly embedded: strings become `List Char`
(the relevant texts are ASCII; the UTF-8 lossy decode is modelled on the
ASCII plane), byte sequences become `List Nat`, IEEE floats become `ℚ`
(every timestamp and threshold appearing in the claims is exactly
representable, and the compared values round identically), regular
expressions become the deterministic scanners they denote on the
patterns actually used (each `\s+` is followed by a non-whitespace
literal, so greedy matching is deterministic).
-/

namespace Ng5G

/-- ASCII whitespace class of the regex `\s` as used on the ASCII plane. -/
def isWS (c : Char) : Bool :=
  c = ' ' || c = '\t' || c = '\n' || c = '\r' || c = '\x0b' || c = '\x0c'

/-- Character class `[a-zA-Z0-9_-]` used for command names
(`analyze_pcap.py` line 117, `analyze_pcapng.py` line 112). -/
def isIdentChar (c : Char) : Bool :=
  c.isAlpha || c.isDigit || c = '_' || c = '-'

/-- Character class `[0-9A-F]` of the hex-identifier regexes
(`plot_spid_dpid.py` line 31, `plotmessages.py` lines 60/66/81). -/
def isUpperHex (c : Char) : Bool :=
  c.isDigit || ('A' ≤ c && c ≤ 'F')

/-- The exact character set of the `lstrip` calls
(`analyze_pcap.py` lines 121/123, `analyze_pcapng.py` line 116):
`' ' '\r' '\n' '\t'` plus `\x00`–`\x08`, `\x0b`, `\x0c`, `\x0e`–`\x1f`
and `\x7f`; together these are exactly the code points `≤ 0x20` or `= 0x7f`. -/
def isStripChar (c : Char) : Bool :=
  c.toNat ≤ 0x20 || c.toNat = 0x7f

/-- `str.lstrip(...)` with the fixed strip set. -/
def stripLeft (cs : List Char) : List Char :=
  cs.dropWhile isStripChar

/-- Python `str.isprintable` restricted to the ASCII plane:
printable iff in `0x20 .. 0x7e`. -/
def isPrintableAscii (c : Char) : Bool :=
  0x20 ≤ c.toNat && c.toNat ≤ 0x7e

/-- `clean_string` (`analyze_pcap.py` line 39, `analyze_pcapng.py` line 22):
keep only printable characters. -/
def cleanString (cs : List Char) : List Char :=
  cs.filter isPrintableAscii

/-- Python substring containment `sub in s` on character lists. -/
def containsSub (sub : List Char) : List Char → Bool
  | [] => sub.isEmpty
  | c :: rest => sub.isPrefixOf (c :: rest) || containsSub sub rest

/-- `packet_contains_data` (`analyze_pcap.py` lines 5-10): true iff some
configured marker occurs in the text. -/
def packet_contains_data (cs : List Char) (markers : List (List Char)) : Bool :=
  markers.any (fun m => containsSub m cs)

/-- `packet_contains_data` of `analyze_pcapng.py` lines 9-17: returns the
first matching marker, or `none`. -/
def findMarker (markers : List (List Char)) (cs : List Char) : Option (List Char) :=
  markers.find? (fun m => containsSub m cs)

/-!
## TimeNormalizer (`analyze_pcap.py` lines 43-72)

State is `first_timestamp : Option ℚ`; the `first_written` flag of the
source is always equal to `first_timestamp ≠ None` (the anchor is never
reset), so it is not carried separately.
-/

/-- One normalization step (`analyze_pcap.py` lines 63-72): given the
current anchor and the raw timestamp of the frame, produce the new anchor
and the normalized time. -/
def normStep : Option ℚ → Option ℚ → Option ℚ × Option ℚ
  | none, none => (none, none)
  | none, some t => (some t, some 0)
  | some a, none => (some a, none)
  | some a, some t => (some a, some (t - a))

/-- Normalization over a stream of raw timestamps, threading the anchor. -/
def normalizeStream (first : Option ℚ) : List (Option ℚ) → List (Option ℚ)
  | [] => []
  | t :: rest =>
      let s := normStep first t
      s.2 :: normalizeStream s.1 rest

lemma normalizeStream_some (a : ℚ) :
    ∀ l : List (Option ℚ),
      normalizeStream (some a) l = l.map (Option.map (fun t => t - a))
  | [] => rfl
  | none :: rest => by
      simp [normalizeStream, normStep, normalizeStream_some a rest]
  | some t :: rest => by
      simp [normalizeStream, normStep, normalizeStream_some a rest]

/-- C3. For every stream of frame timestamps reaching the normalization
step: frames before the first present timestamp yield an absent normalized
time and leave the anchor unset; the first present timestamp `t0` yields
normalized time `0.0` and anchors the session at `t0`; every later frame
with a present timestamp `t` yields exactly `t - t0` (negative when
`t < t0`, since this is exact subtraction), and frames without a timestamp
yield an absent time and never disturb the anchor. -/
theorem c3_time_normalizer (pre : List (Option ℚ)) (t0 : ℚ)
    (rest : List (Option ℚ)) (hpre : ∀ x ∈ pre, x = none) :
    normalizeStream none (pre ++ some t0 :: rest)
      = pre.map (fun _ => none) ++ some 0 :: rest.map (Option.map (fun t => t - t0)) := by
  induction pre with
  | nil => simp [normalizeStream, normStep, normalizeStream_some]
  | cons x xs ih =>
      have hx : x = none := hpre x (by simp)
      subst hx
      have hxs : ∀ y ∈ xs, y = none := fun y hy => hpre y (by simp [hy])
      simp [normalizeStream, normStep, ih hxs]

/-- Concrete run of C3: stream `[None, 5.0, 3.0, None, 7.0]` normalizes to
`[None, 0.0, -2.0, None, 2.0]` — including a negative delta. -/
theorem c3_time_normalizer_witness :
    normalizeStream none [none, some (5 : ℚ), some 3, none, some 7]
      = [none, some 0, some (-2), none, some 2] := by
  have h := c3_time_normalizer [none] 5 [some 3, none, some 7] (by simp)
  simpa using h.trans (by norm_num)

/-!
## Framing recovery (`analyze_pcap.py` lines 115-123,
`analyze_pcapng.py` lines 111-118)

The regex is `ng\s+-[a-zA-Z0-9_-]+`. A match at a position requires the
literal `ng`, at least one whitespace character, then `-` and at least one
identifier character. Since `-` is not whitespace, the greedy `\s+` is
deterministic: it is matchable at a position iff after `ng` there is a
(maximal) nonempty whitespace run followed by `-` and an identifier
character. `re.search` relocation uses only the start of the leftmost
match.
-/

/-- After the whitespace run following `ng`: skip further whitespace, then
require `-` followed by one identifier character. -/
def wsThenDashIdent : List Char → Bool
  | [] => false
  | c :: rest =>
      if isWS c then wsThenDashIdent rest
      else
        c = '-' && (match rest with
                    | d :: _ => isIdentChar d
                    | [] => false)

/-- Whether the command-name regex `ng\s+-[a-zA-Z0-9_-]+` matches starting
exactly at the head of the list. -/
def matchesCmdAt : List Char → Bool
  | 'n' :: 'g' :: c :: rest => isWS c && wsThenDashIdent (c :: rest)
  | _ => false

/-- Index of the leftmost match of the command-name regex (`re.search`),
or `none`. -/
def findCmdStart : List Char → Option Nat
  | [] => none
  | c :: rest =>
      if matchesCmdAt (c :: rest) then some 0
      else (findCmdStart rest).map (· + 1)

/-- The branch `data_str = data_str[match.start():]` / else `lstrip`
(`analyze_pcap.py` lines 117-121, `analyze_pcapng.py` lines 112-116). -/
def relocate (cs : List Char) : List Char :=
  match findCmdStart cs with
  | some i => cs.drop i
  | none => stripLeft cs

/-- Post-match processing of `analyze_pcap.py` lines 115-126: relocate (or
left-strip), left-strip again (line 123), then remove non-printable
characters (line 126). -/
def postprocessPcap (cs : List Char) : List Char :=
  cleanString (stripLeft (relocate cs))

lemma findCmdStart_spec :
    ∀ cs : List Char, ∀ i, findCmdStart cs = some i →
      matchesCmdAt (cs.drop i) = true ∧ ∀ j, j < i → matchesCmdAt (cs.drop j) = false := by
  intro cs
  induction cs with
  | nil => intro i h; simp [findCmdStart] at h
  | cons c rest ih =>
      intro i h
      simp only [findCmdStart] at h
      by_cases hm : matchesCmdAt (c :: rest) = true
      · rw [if_pos hm] at h
        have hi : i = 0 := (Option.some.inj h).symm
        subst hi
        exact ⟨by simpa using hm, fun j hj => absurd hj (Nat.not_lt_zero j)⟩
      · rw [if_neg hm] at h
        rw [Bool.not_eq_true] at hm
        cases hf : findCmdStart rest with
        | none => rw [hf] at h; simp at h
        | some k =>
            rw [hf] at h
            have hi : i = k + 1 := by simpa using h.symm
            subst hi
            obtain ⟨h1, h2⟩ := ih k hf
            refine ⟨by simpa using h1, ?_⟩
            intro j hj
            cases j with
            | zero => simpa using hm
            | succ j' =>
                have hj' : j' < k := by omega
                simpa using h2 j' hj'

lemma findCmdStart_none :
    ∀ cs : List Char, findCmdStart cs = none →
      ∀ j, matchesCmdAt (cs.drop j) = false := by
  intro cs
  induction cs with
  | nil => intro _ j; cases j <;> simp [matchesCmdAt]
  | cons c rest ih =>
      intro h j
      simp only [findCmdStart] at h
      by_cases hm : matchesCmdAt (c :: rest) = true
      · rw [if_pos hm] at h; simp at h
      · rw [if_neg hm] at h
        rw [Bool.not_eq_true] at hm
        cases hf : findCmdStart rest with
        | some k => rw [hf] at h; simp at h
        | none =>
            cases j with
            | zero => simpa using hm
            | succ j' => simpa using ih hf j'

/-- A relocated text starts with `'n'`, which is not in the strip set, so
the second `lstrip` is the identity there. -/
lemma stripLeft_of_matchesCmdAt (cs : List Char) (h : matchesCmdAt cs = true) :
    stripLeft cs = cs := by
  rw [matchesCmdAt.eq_def] at h
  split at h
  · next c rest =>
      have hn : isStripChar 'n' = false := by decide
      simp [stripLeft, List.dropWhile, hn]
  · exact absurd h (by simp)

/-- C7. For every marker-matched payload text, framing recovery relocates
the data to the leftmost occurrence of the command-name pattern
(`ng`, whitespace, `-`, identifier characters) when one exists, discarding
everything before it (no earlier position matches); when no such pattern
exists it instead strips the fixed control/whitespace set from the left
edge. In particular, with markers `{"ng -d "}` and text
`"junkng -d --b [...]"`, the emitted data starts at `"ng -d"`. -/
theorem c7_framing_recovery (markers : List (List Char)) (cs : List Char)
    (h : packet_contains_data cs markers = true) :
    (∀ i, findCmdStart cs = some i →
        relocate cs = cs.drop i ∧ matchesCmdAt (cs.drop i) = true ∧
        ∀ j, j < i → matchesCmdAt (cs.drop j) = false)
    ∧ (findCmdStart cs = none → relocate cs = stripLeft cs)
    ∧ postprocessPcap ("junkng -d --b [...]".toList) = "ng -d --b [...]".toList := by
  refine ⟨?_, ?_, ?_⟩
  · intro i hi
    obtain ⟨h1, h2⟩ := findCmdStart_spec cs i hi
    exact ⟨by simp [relocate, hi], h1, h2⟩
  · intro hn
    simp [relocate, hn]
  · decide

/-- Concrete run of C7: the marker `"ng -d "` matches the noisy text, the
leftmost command pattern is at index 4, and recovery drops the four junk
characters. -/
theorem c7_framing_recovery_witness :
    packet_contains_data ("junkng -d --b [...]".toList) ["ng -d ".toList] = true ∧
    relocate ("junkng -d --b [...]".toList) = ("junkng -d --b [...]".toList).drop 4 := by
  have h := c7_framing_recovery ["ng -d ".toList] ("junkng -d --b [...]".toList) (by decide)
  exact ⟨by decide, (h.1 4 (by decide)).1⟩

/-!
## FrameSlicer (`analyze_pcap.py`, `main` loop lines 49-140 and
`is_icmp` lines 12-24)

A raw frame is a byte list. The embedding mirrors the loop body on one
frame, abstracting the emitted JSON record to its `data` field (timestamp
normalization is `normalizeStream` above; the MAC fields are byte slices
the claims do not touch). The UTF-8 lossy decode (`decode(errors='ignore')`)
is modelled on the ASCII plane: bytes ≥ `0x80` are dropped.
-/

/-- The global marker list of `analyze_pcap.py` line 28. -/
def SUBSTRINGS_pcap : List (List Char) :=
  ["ng -notify".toList, "ng -p".toList, "ng -d".toList, "ng -s".toList]

/-- Lossy decode of payload bytes, modelled on the ASCII plane. -/
def decodeAscii (bs : List Nat) : List Char :=
  (bs.filter (fun b => b < 128)).map Char.ofNat

/-- EtherType: bytes 12-13, big-endian (`analyze_pcap.py` line 18). -/
def ethProto (pkt : List Nat) : Nat :=
  pkt.getD 12 0 * 256 + pkt.getD 13 0

/-- IP protocol field, byte 23 (`ip_header[9]` at line 87 / line 22). -/
def protocolOf (pkt : List Nat) : Nat :=
  pkt.getD 23 0

/-- IP header length: 4 × low nibble of byte 14 (`analyze_pcap.py` line 86). -/
def ihlOf (pkt : List Nat) : Nat :=
  pkt.getD 14 0 % 16 * 4

/-- `is_icmp` (`analyze_pcap.py` lines 12-24). -/
def is_icmp (pkt : List Nat) : Bool :=
  if pkt.length < 34 then false
  else if ethProto pkt != 0x0800 then false
  else protocolOf pkt == 1

/-- TCP header length: 4 × high nibble of the byte at `tstart + 12`
(`analyze_pcap.py` line 93). -/
def tcpHeaderLen (pkt : List Nat) (tstart : Nat) : Nat :=
  pkt.getD (tstart + 12) 0 / 16 % 16 * 4

/-- Transport branch of the slicer (`analyze_pcap.py` lines 88-104):
`none` models the TCP `continue` on insufficient length. -/
def sliceData (pkt : List Nat) : Option (List Nat) :=
  let ihl := ihlOf pkt
  if protocolOf pkt = 6 then
    let tstart := 14 + ihl
    if pkt.length < tstart + 20 then none
    else some (pkt.drop (tstart + tcpHeaderLen pkt tstart))
  else if protocolOf pkt = 17 then
    some (pkt.drop (14 + ihl + 8))
  else
    some (pkt.drop (14 + ihl))

/-- Reason a frame produced no output record, one per `continue` site. -/
inductive SkipReason where
  | icmp
  | tooShortEth
  | tooShortIp
  | truncatedTcp
  | noMarker
  deriving DecidableEq

/-- Outcome of processing one frame: a skip, or an emitted `data` string. -/
inductive SliceOut where
  | skip (r : SkipReason)
  | emit (data : List Char)
  deriving DecidableEq

/-- Loop body after the ICMP filter (`analyze_pcap.py` lines 74-137):
length checks, transport slicing, decode, marker filter, framing recovery
and emission. -/
def processFrameBody (pkt : List Nat) : SliceOut :=
  if pkt.length < 14 then .skip .tooShortEth
  else if pkt.length < 34 then .skip .tooShortIp
  else
    match sliceData pkt with
    | none => .skip .truncatedTcp
    | some bytes =>
        let s := decodeAscii bytes
        if packet_contains_data s SUBSTRINGS_pcap then .emit (postprocessPcap s)
        else .skip .noMarker

/-- Full per-frame processing (`analyze_pcap.py` lines 49-137): the ICMP
filter runs first, then the body. -/
def processFrame (pkt : List Nat) : SliceOut :=
  if is_icmp pkt then .skip .icmp else processFrameBody pkt

lemma processFrame_eq_body (pkt : List Nat) (h : is_icmp pkt = false) :
    processFrame pkt = processFrameBody pkt := by
  simp [processFrame, h]

/-- A 49-byte frame with EtherType `0x0806` (not IPv4) whose bytes from
offset 42 spell `"ng -d x"`; the slicer treats it as IPv4/UDP anyway. -/
def c1Frame : List Nat :=
  List.replicate 12 0 ++ [0x08, 0x06] ++ [0x45] ++ List.replicate 8 0 ++ [17]
    ++ List.replicate 18 0 ++ ("ng -d x".toList.map Char.toNat)

/-- C1 fails on the code: this frame has EtherType `0x0806 ≠ 0x0800`, yet
the slicer does not skip it — it slices a payload and emits an output
record (there is no EtherType check outside the ICMP filter). -/
theorem c1_counterexample :
    ethProto c1Frame = 0x0806 ∧ (0x0806 : Nat) ≠ 0x0800 ∧
    processFrame c1Frame = .emit ("ng -d x".toList) := by
  refine ⟨by decide, by decide, by decide⟩

/-- C1 amended. A frame with EtherType ≠ `0x0800` is never classified as
ICMP — the ICMP filter is the only EtherType-dependent check — and is
otherwise processed exactly like an IPv4 frame (it may emit a record). -/
theorem c1_ethertype_amended (pkt : List Nat) (h : ethProto pkt ≠ 0x0800) :
    is_icmp pkt = false ∧ processFrame pkt = processFrameBody pkt := by
  have hicmp : is_icmp pkt = false := by
    unfold is_icmp
    split
    · rfl
    · rw [if_pos (by simpa using h)]
  exact ⟨hicmp, processFrame_eq_body pkt hicmp⟩

/-- Concrete run of the amended C1 at the EtherType-`0x0806` frame. -/
theorem c1_ethertype_amended_witness :
    is_icmp c1Frame = false ∧ processFrame c1Frame = processFrameBody c1Frame :=
  c1_ethertype_amended c1Frame (by decide)

/-- A 34-byte IPv4/UDP frame whose IHL nibble is 15 (`ip_header_len = 60`):
shorter than `14 + 60` yet never rejected as truncated. -/
def c4Frame : List Nat :=
  List.replicate 12 0 ++ [0x08, 0x00] ++ [0x4f] ++ List.replicate 8 0 ++ [17]
    ++ List.replicate 10 0

/-- C4 fails on the code: this UDP frame is shorter than `14 + ip_header_len`
(34 < 74) but is not rejected as a truncated header — the slicer proceeds,
slices an (empty) payload and the frame is dropped only by the marker
filter. -/
theorem c4_counterexample :
    c4Frame.length < 14 + ihlOf c4Frame ∧
    processFrame c4Frame = .skip .noMarker ∧
    processFrame c4Frame ≠ .skip .truncatedTcp := by
  refine ⟨by decide, by decide, by decide⟩

/-- C4 amended. The slicer reads `ip_header_len` as 4 × the low nibble of
byte 14. Frames shorter than 14 bytes and frames shorter than 34 bytes are
rejected before any slicing; a TCP frame shorter than
`14 + ip_header_len + 20` is rejected as truncated before its payload is
sliced; but for UDP and for other protocols there is no
`ip_header_len`-dependent length check: a frame shorter than
`14 + ip_header_len` has an empty payload sliced and is then dropped by
the marker filter, not rejected as truncated. -/
theorem c4_truncation_amended (pkt : List Nat) :
    (pkt.length < 14 → processFrame pkt = .skip .tooShortEth)
    ∧ (14 ≤ pkt.length → pkt.length < 34 → processFrame pkt = .skip .tooShortIp)
    ∧ (34 ≤ pkt.length → is_icmp pkt = false → protocolOf pkt = 6 →
        pkt.length < 14 + ihlOf pkt + 20 → processFrame pkt = .skip .truncatedTcp)
    ∧ (34 ≤ pkt.length → is_icmp pkt = false → protocolOf pkt = 17 →
        pkt.length < 14 + ihlOf pkt → processFrame pkt = .skip .noMarker)
    ∧ (34 ≤ pkt.length → is_icmp pkt = false → protocolOf pkt ≠ 6 →
        protocolOf pkt ≠ 17 →
        pkt.length < 14 + ihlOf pkt → processFrame pkt = .skip .noMarker) := by
  refine ⟨?_, ?_, ?_, ?_, ?_⟩
  · intro h
    have hicmp : is_icmp pkt = false := by
      unfold is_icmp; rw [if_pos (by omega)]
    rw [processFrame_eq_body pkt hicmp, processFrameBody, if_pos h]
  · intro h14 h34
    have hicmp : is_icmp pkt = false := by
      unfold is_icmp; rw [if_pos (by omega)]
    rw [processFrame_eq_body pkt hicmp, processFrameBody, if_neg (by omega),
      if_pos h34]
  · intro h34 hicmp hp hlen
    have hslice : sliceData pkt = none := by
      unfold sliceData
      rw [if_pos hp, if_pos (by omega)]
    rw [processFrame_eq_body pkt hicmp, processFrameBody, if_neg (by omega),
      if_neg (by omega), hslice]
  · intro h34 hicmp hp hlen
    have hdrop : pkt.drop (14 + ihlOf pkt + 8) = [] :=
      List.drop_eq_nil_of_le (by omega)
    have hslice : sliceData pkt = some [] := by
      unfold sliceData
      rw [if_neg (by omega), if_pos hp, hdrop]
    rw [processFrame_eq_body pkt hicmp, processFrameBody, if_neg (by omega),
      if_neg (by omega), hslice]
    decide
  · intro h34 hicmp hp6 hp17 hlen
    have hdrop : pkt.drop (14 + ihlOf pkt) = [] :=
      List.drop_eq_nil_of_le (by omega)
    have hslice : sliceData pkt = some [] := by
      unfold sliceData
      rw [if_neg hp6, if_neg hp17, hdrop]
    rw [processFrame_eq_body pkt hicmp, processFrameBody, if_neg (by omega),
      if_neg (by omega), hslice]
    decide

/-- A 34-byte IPv4/TCP frame with IHL nibble 15: 34 < 74 + 20. -/
def c4TcpFrame : List Nat :=
  List.replicate 12 0 ++ [0x08, 0x00] ++ [0x4f] ++ List.replicate 8 0 ++ [6]
    ++ List.replicate 10 0

/-- Concrete run of the amended C4: the truncated TCP frame is rejected as
truncated, and the truncated UDP frame `c4Frame` is dropped by the marker
filter on an empty sliced payload. -/
theorem c4_truncation_amended_witness :
    processFrame c4TcpFrame = .skip .truncatedTcp ∧
    processFrame c4Frame = .skip .noMarker :=
  ⟨(c4_truncation_amended c4TcpFrame).2.2.1 (by decide) (by decide) (by decide)
      (by decide),
    (c4_truncation_amended c4Frame).2.2.2.1 (by decide) (by decide) (by decide)
      (by decide)⟩

/-!
## Filter stage (`filter.py` lines 6-40)

A record is its `time` and `data` fields, the only ones the filter reads.
The first pass keeps marker-matched records; the second drops records with
a missing time and applies the optional `[begin, end]` bounds. The
source's special case for an empty relevant list only creates an empty
file and adds no records.
-/

/-- One JSON-lines record as the filter sees it. -/
structure FilterRec where
  time : Option ℚ
  data : List Char
  deriving DecidableEq

/-- The marker list of `filter.py` line 6 (note: no `"ng -s"` here). -/
def SUBSTRINGS_filter : List (List Char) :=
  ["ng -notify".toList, "ng -p".toList, "ng -d".toList]

/-- First pass (`filter.py` lines 14-17): marker containment. -/
def relevantPass (r : FilterRec) : Bool :=
  SUBSTRINGS_filter.any (fun m => containsSub m r.data)

/-- Second pass (`filter.py` lines 30-37): records with missing time are
skipped unconditionally; then each specified bound is applied. -/
def intervalPass (b e : Option ℚ) (r : FilterRec) : Bool :=
  match r.time with
  | none => false
  | some t =>
      (match b with
       | none => true
       | some bv => !decide (t < bv)) &&
      (match e with
       | none => true
       | some ev => !decide (ev < t))

/-- Whether one record survives both passes. -/
def filterPass (b e : Option ℚ) (r : FilterRec) : Bool :=
  relevantPass r && intervalPass b e r

/-- `filter_relevant_messages` (`filter.py` lines 8-40) on the record
stream. -/
def filter_relevant_messages (b e : Option ℚ) (recs : List FilterRec) :
    List FilterRec :=
  (recs.filter relevantPass).filter (intervalPass b e)

/-- A marker-matched record with a missing time. -/
def c5Rec : FilterRec := ⟨none, "ng -d x".toList⟩

/-- C5 fails on the code: with no interval specified, a marker-matched
record whose time is missing is still excluded (`filter.py` lines 30-32
skip `time is None` unconditionally), while the claim says a missing time
excludes the record only when an interval is specified. -/
theorem c5_counterexample :
    relevantPass c5Rec = true ∧ c5Rec.time = none ∧
    filter_relevant_messages none none [c5Rec] = [] := by
  refine ⟨by decide, rfl, by decide⟩

/-- C5 amended. The filter passes a record through iff its data contains a
configured marker, its time is present, and the time lies within every
specified bound; a record with missing time is always excluded, also when
no interval is specified. -/
theorem c5_filter_amended (b e : Option ℚ) :
    (∀ recs, filter_relevant_messages b e recs
        = recs.filter (fun r => filterPass b e r))
    ∧ ∀ r, filterPass b e r = true ↔
        (relevantPass r = true ∧ ∃ t, r.time = some t ∧
          (∀ bv, b = some bv → bv ≤ t) ∧ (∀ ev, e = some ev → t ≤ ev)) := by
  constructor
  · intro recs
    simp only [filter_relevant_messages, filterPass, List.filter_filter]
    exact List.filter_congr fun r _ => Bool.and_comm _ _
  · intro r
    cases hr : r.time with
    | none => simp [filterPass, intervalPass, hr]
    | some t =>
        cases b with
        | none =>
            cases e with
            | none => simp [filterPass, intervalPass, hr]
            | some ev => simp [filterPass, intervalPass, hr, not_lt]
        | some bv =>
            cases e with
            | none => simp [filterPass, intervalPass, hr, not_lt]
            | some ev =>
                simp [filterPass, intervalPass, hr, not_lt, and_assoc]

/-- Concrete run of the amended C5: a record at time 5 with marker data
passes the interval `[1, 9]`. -/
theorem c5_filter_amended_witness :
    filterPass (some 1) (some 9) ⟨some 5, "ng -d x".toList⟩ = true := by
  refine ((c5_filter_amended (some 1) (some 9)).2 _).mpr
    ⟨by decide, 5, rfl, ?_, ?_⟩
  · intro bv hbv
    cases hbv
    norm_num
  · intro ev hev
    cases hev
    norm_num

/-!
## Hex-identifier extraction (`plot_spid_dpid.py` line 31)

`re.findall(r'([0-9A-F]{8,})', s)` returns, left to right, every maximal
run of characters from `[0-9A-F]` whose length is at least 8 (the greedy
quantifier consumes a whole run; runs shorter than 8 never match, and the
scan resumes after each match). The pattern has no `re.IGNORECASE` flag,
so only uppercase hex digits participate. (`plotmessages.py` lines
60/66/81 use the same uppercase-only class `\b([0-9A-F]{8})\b`.)
-/

/-- Splits into maximal `[0-9A-F]` runs; `acc` holds the reversed current
run. -/
def hexRunsAux : List Char → List Char → List (List Char)
  | [], acc => if acc.isEmpty then [] else [acc.reverse]
  | c :: rest, acc =>
      if isUpperHex c then hexRunsAux rest (c :: acc)
      else if acc.isEmpty then hexRunsAux rest []
      else acc.reverse :: hexRunsAux rest []

/-- All maximal `[0-9A-F]` runs of a string, in order of appearance. -/
def hexRuns (cs : List Char) : List (List Char) :=
  hexRunsAux cs []

/-- `re.findall(r'([0-9A-F]{8,})', s)`: the maximal runs of length ≥ 8. -/
def hexGroups (cs : List Char) : List (List Char) :=
  (hexRuns cs).filter (fun g => 8 ≤ g.length)

lemma hexRunsAux_all :
    ∀ (cs acc : List Char), acc.all isUpperHex = true →
      ∀ g ∈ hexRunsAux cs acc, g.all isUpperHex = true := by
  intro cs
  induction cs with
  | nil =>
      intro acc hacc g hg
      simp only [hexRunsAux] at hg
      split at hg
      · simp at hg
      · simp only [List.mem_singleton] at hg
        subst hg
        simpa using hacc
  | cons c rest ih =>
      intro acc hacc g hg
      simp only [hexRunsAux] at hg
      split at hg
      · next hc =>
          exact ih (c :: acc) (by simp [hc, hacc]) g hg
      · split at hg
        · exact ih [] (by simp) g hg
        · rcases List.mem_cons.mp hg with hgl | hgr
          · subst hgl
            simpa using hacc
          · exact ih [] (by simp) g hgr

/-- Every field collected by the hex-group scan is a string of length ≥ 8
whose characters are all uppercase hexadecimal digits. -/
lemma hexGroups_mem_spec (cs : List Char) (g : List Char)
    (hg : g ∈ hexGroups cs) : g.all isUpperHex = true ∧ 8 ≤ g.length := by
  have hmem := List.mem_filter.mp hg
  exact ⟨hexRunsAux_all cs [] (by simp) g hmem.1, by simpa using hmem.2⟩

/-- C6 fails on the code: the scan is uppercase-only (no `re.IGNORECASE`,
no canonicalization), so the lowercase form of an identifier collects
nothing while the uppercase form is collected. -/
theorem c6_counterexample :
    hexGroups ("0a1b2c3d".toList) = [] ∧
    hexGroups ("0A1B2C3D".toList) = ["0A1B2C3D".toList] := by
  refine ⟨by decide, by decide⟩

/-- C6 amended. The field-extraction step recognizes only uppercase
8-or-more-hex-digit substrings: every collected field has length ≥ 8 and
consists solely of characters in `[0-9A-F]`; an identifier written in
lowercase hex is never collected (and no canonicalization occurs). -/
theorem c6_uppercase_only (cs : List Char) :
    ∀ g ∈ hexGroups cs, g.all isUpperHex = true ∧ 8 ≤ g.length :=
  fun g hg => hexGroups_mem_spec cs g hg

/-- Concrete run of the amended C6: the field collected from
`"xx0A1B2C3D yy"` is 8 uppercase hex digits. -/
theorem c6_uppercase_only_witness :
    ("0A1B2C3D".toList).all isUpperHex = true ∧
    8 ≤ ("0A1B2C3D".toList).length :=
  c6_uppercase_only ("xx0A1B2C3D yy".toList) ("0A1B2C3D".toList) (by decide)

/-!
## S_PID / D_PID parsing (`plot_spid_dpid.py` lines 8-54)

The regex `ng\s+-m\s+--cl\s+0\.1\s+\[(.*?)\]` is embedded as a
deterministic scanner: each `\s+` is followed by a non-whitespace literal,
and the lazy group `(.*?)\]` takes the characters up to the first `]`,
failing if a newline (which `.` does not match) comes first; `re.search`
takes the leftmost position where the whole pattern matches.
-/

/-- Consume an exact literal. -/
def dropLit (lit cs : List Char) : Option (List Char) :=
  if lit.isPrefixOf cs then some (cs.drop lit.length) else none

/-- Consume `\s+`: at least one whitespace character, maximally. -/
def dropWS1 : List Char → Option (List Char)
  | [] => none
  | c :: rest => if isWS c then some (rest.dropWhile isWS) else none

/-- Consume `(.*?)\]`: the content before the first `]`, provided no
newline intervenes. -/
def takeUntilRB : List Char → Option (List Char)
  | [] => none
  | c :: rest =>
      if c = ']' then some []
      else if c = '\n' then none
      else (takeUntilRB rest).map (c :: ·)

/-- Match `ng\s+-m\s+--cl\s+0\.1\s+\[(.*?)\]` anchored at the head,
returning the bracketed content. -/
def matchNgMAt (cs : List Char) : Option (List Char) :=
  (((((((((dropLit ['n', 'g'] cs).bind dropWS1).bind
    (dropLit ['-', 'm'])).bind dropWS1).bind
    (dropLit ['-', '-', 'c', 'l'])).bind dropWS1).bind
    (dropLit ['0', '.', '1'])).bind dropWS1).bind
    (dropLit ['['])).bind takeUntilRB

/-- `re.search` for the `ng -m --cl 0.1 [...]` block: leftmost match. -/
def ngMBlock : List Char → Option (List Char)
  | [] => none
  | c :: rest =>
      match matchNgMAt (c :: rest) with
      | some content => some content
      | none => ngMBlock rest

/-- One parsed record: `time`, `s_pid`, `d_pid` (the plotting-only
`other_cmds` list is not part of the claims and is omitted). -/
structure SpidDpidRec where
  time : Option ℚ
  s_pid : List Char
  d_pid : List Char
  deriving DecidableEq

/-- Per-line body of `parse_spid_dpid_records` (`plot_spid_dpid.py`
lines 19-51): no `ng -m` block or fewer than six hex groups means no
record; otherwise `s_pid` is the third and `d_pid` the sixth hex group. -/
def parseSpidDpidLine (time : Option ℚ) (data : List Char) :
    Option SpidDpidRec :=
  match ngMBlock data with
  | none => none
  | some m_block =>
      let gs := hexGroups m_block
      if gs.length < 6 then none
      else some ⟨time, gs.getD 2 [], gs.getD 5 []⟩

lemma hexGroups_getD_mem (c : List Char) (i : Nat)
    (h : i < (hexGroups c).length) :
    (hexGroups c).getD i [] ∈ hexGroups c := by
  rw [List.getD_eq_getElem?_getD, List.getElem?_eq_getElem h]
  exact List.getElem_mem h

/-- C8. Every record produced by the S_PID/D_PID parser comes from a line
with an `ng -m --cl 0.1 [...]` block containing at least six hex groups,
carries the line's time, has `s_pid` equal to the third and `d_pid` to the
sixth hex group, and both are populated hexadecimal identifiers (≥ 8
uppercase hex digits); a line with no block, or with fewer than six
groups, produces no record. -/
theorem c8_spid_dpid_invariant (t : Option ℚ) (d : List Char) :
    (∀ r, parseSpidDpidLine t d = some r →
      ∃ c, ngMBlock d = some c ∧ 6 ≤ (hexGroups c).length ∧
        r.time = t ∧
        r.s_pid = (hexGroups c).getD 2 [] ∧
        r.d_pid = (hexGroups c).getD 5 [] ∧
        r.s_pid.all isUpperHex = true ∧ 8 ≤ r.s_pid.length ∧
        r.d_pid.all isUpperHex = true ∧ 8 ≤ r.d_pid.length)
    ∧ (ngMBlock d = none → parseSpidDpidLine t d = none)
    ∧ (∀ c, ngMBlock d = some c → (hexGroups c).length < 6 →
        parseSpidDpidLine t d = none) := by
  refine ⟨?_, ?_, ?_⟩
  · intro r h
    unfold parseSpidDpidLine at h
    cases hb : ngMBlock d with
    | none => rw [hb] at h; exact absurd h (by simp)
    | some c =>
        rw [hb] at h
        simp only at h
        split at h
        · exact absurd h (by simp)
        · next hlen =>
            have h6 : 6 ≤ (hexGroups c).length := by omega
            have hr := Option.some.inj h
            subst hr
            have hs := hexGroups_mem_spec c _ (hexGroups_getD_mem c 2 (by omega))
            have hd := hexGroups_mem_spec c _ (hexGroups_getD_mem c 5 (by omega))
            exact ⟨c, rfl, h6, rfl, rfl, rfl, hs.1, hs.2, hd.1, hd.2⟩
  · intro hb
    unfold parseSpidDpidLine
    rw [hb]
  · intro c hb hlen
    unfold parseSpidDpidLine
    rw [hb]
    simp only
    rw [if_pos hlen]

/-- Concrete run of C8: a line with six hex groups in its `ng -m` block
yields a record with the third and sixth groups as PIDs. -/
theorem c8_spid_dpid_invariant_witness :
    ∃ c, ngMBlock ("ng -m --cl 0.1 [AAAAAAAA BBBBBBBB CCCCCCCC DDDDDDDD EEEEEEEE FFFFFFFF]".toList) = some c ∧
      6 ≤ (hexGroups c).length ∧
      (SpidDpidRec.mk (some 1) ("CCCCCCCC".toList) ("FFFFFFFF".toList)).time = some 1 ∧
      (SpidDpidRec.mk (some 1) ("CCCCCCCC".toList) ("FFFFFFFF".toList)).s_pid = (hexGroups c).getD 2 [] ∧
      (SpidDpidRec.mk (some 1) ("CCCCCCCC".toList) ("FFFFFFFF".toList)).d_pid = (hexGroups c).getD 5 [] ∧
      (SpidDpidRec.mk (some 1) ("CCCCCCCC".toList) ("FFFFFFFF".toList)).s_pid.all isUpperHex = true ∧
      8 ≤ (SpidDpidRec.mk (some 1) ("CCCCCCCC".toList) ("FFFFFFFF".toList)).s_pid.length ∧
      (SpidDpidRec.mk (some 1) ("CCCCCCCC".toList) ("FFFFFFFF".toList)).d_pid.all isUpperHex = true ∧
      8 ≤ (SpidDpidRec.mk (some 1) ("CCCCCCCC".toList) ("FFFFFFFF".toList)).d_pid.length :=
  (c8_spid_dpid_invariant (some 1)
      ("ng -m --cl 0.1 [AAAAAAAA BBBBBBBB CCCCCCCC DDDDDDDD EEEEEEEE FFFFFFFF]".toList)).1
    (SpidDpidRec.mk (some 1) ("CCCCCCCC".toList) ("FFFFFFFF".toList)) (by decide)

/-!
## SequenceReconstructor gap detection (`plot_sequence.py` lines 217-263)

`plot_sequence_diagram` sorts messages by time, takes
`min_time`/`max_time` over the times (when no explicit start/end is
given), sets `time_range = max - min if max > min else 1`, computes the
consecutive deltas and flags `gap_positions` — the indices `i` of the
delta list with `time_gaps[i] > time_range * 0.1`. Delta index `i`
corresponds to the gap before the event at index `i + 1`. All values in
the claim are exactly representable as floats and every comparison rounds
identically over `ℚ`.
-/

/-- `min(all_times)` on a nonempty list (`plot_sequence.py` line 227). -/
def minOf : List ℚ → ℚ
  | [] => 0
  | t :: rest => rest.foldl min t

/-- `max(all_times)` on a nonempty list (`plot_sequence.py` line 232). -/
def maxOf : List ℚ → ℚ
  | [] => 0
  | t :: rest => rest.foldl max t

/-- Line 234: `max_time - min_time if max_time > min_time else 1`. -/
def timeRangeOf (ts : List ℚ) : ℚ :=
  if minOf ts < maxOf ts then maxOf ts - minOf ts else 1

/-- Lines 251-254: consecutive deltas `t[i+1] - t[i]`. -/
def timeGaps (ts : List ℚ) : List ℚ :=
  List.zipWith (fun a b => a - b) ts.tail ts

/-- Line 257: `gap_threshold = time_range * 0.1`. -/
def gapThreshold (ts : List ℚ) : ℚ :=
  timeRangeOf ts * (1 / 10)

/-- Lines 260-263: delta indices whose gap exceeds the threshold. -/
def gapPositions (ts : List ℚ) : List Nat :=
  (List.range (timeGaps ts).length).filter
    (fun i => decide (gapThreshold ts < (timeGaps ts).getD i 0))

/-- The event times of the claim: `[0.0, 1.0, 1.1, 9.0]`. -/
def c2Times : List ℚ := [0, 1, 11 / 10, 9]

lemma c2_timeGaps : timeGaps c2Times = [1, 1 / 10, 79 / 10] := by
  simp only [c2Times, timeGaps, List.tail_cons, List.zipWith]
  norm_num

lemma c2_timeRange : timeRangeOf c2Times = 9 := by
  have hmin : minOf c2Times = 0 := by
    simp only [c2Times, minOf, List.foldl]
    norm_num [min_def]
  have hmax : maxOf c2Times = 9 := by
    simp only [c2Times, maxOf, List.foldl]
    norm_num [max_def]
  rw [timeRangeOf, hmin, hmax]
  norm_num

lemma c2_threshold : gapThreshold c2Times = 9 / 10 := by
  rw [gapThreshold, c2_timeRange]
  norm_num

lemma timeGaps_getD (ts : List ℚ) (i : Nat) (h : i + 1 < ts.length) :
    (timeGaps ts).getD i 0 = ts.getD (i + 1) 0 - ts.getD i 0 := by
  have h0 : i < ts.length := by omega
  rw [List.getD_eq_getElem?_getD, List.getD_eq_getElem?_getD,
    List.getD_eq_getElem?_getD]
  rw [show timeGaps ts = List.zipWith (fun a b => a - b) ts.tail ts from rfl]
  rw [List.getElem?_zipWith', List.getElem?_tail,
    List.getElem?_eq_getElem h, List.getElem?_eq_getElem h0]
  rfl

lemma c2_gapPositions : gapPositions c2Times = [0, 2] := by
  have e0 : ((9 : ℚ) / 10 < 1) := by norm_num
  have e1 : ¬((9 : ℚ) / 10 < 1 / 10) := by norm_num
  have e2 : ((9 : ℚ) / 10 < 79 / 10) := by norm_num
  simp only [gapPositions, c2_timeGaps, c2_threshold]
  norm_num [List.range_succ, List.filter_append, e0, e1, e2]

/-- C2 fails on the code: at normalized times `[0.0, 1.0, 1.1, 9.0]` the
range is 9.0 and the threshold 0.9 as the claim says, but by the claim's
own rule the delta 1.0 between the first two events also exceeds 0.9, so
gaps are flagged at delta positions 0 and 2 (before the events at 1.0 and
at 9.0) — not only before the event at 9.0. -/
theorem c2_gap_counterexample :
    timeRangeOf c2Times = 9 ∧ gapThreshold c2Times = 9 / 10 ∧
    gapPositions c2Times ≠ [2] ∧ (0 : ℕ) ∈ gapPositions c2Times := by
  refine ⟨c2_timeRange, c2_threshold, ?_, ?_⟩
  · rw [c2_gapPositions]
    simp
  · rw [c2_gapPositions]
    simp

/-- C2 amended. For the event times `[0.0, 1.0, 1.1, 9.0]` with gap ratio
0.1 the reconstructor computes `time_range = 9.0` and threshold `0.9`, and
flags gaps before the events at times 1.0 and 9.0 (delta positions 0
and 2); in general a gap is recorded at delta position `i` exactly when
`t[i+1] - t[i]` exceeds the threshold. -/
theorem c2_gap_detection_amended :
    timeRangeOf c2Times = 9 ∧ gapThreshold c2Times = 9 / 10 ∧
    gapPositions c2Times = [0, 2] ∧
    ∀ ts : List ℚ, ∀ i : ℕ, i ∈ gapPositions ts ↔
      (i + 1 < ts.length ∧ gapThreshold ts < ts.getD (i + 1) 0 - ts.getD i 0) := by
  refine ⟨c2_timeRange, c2_threshold, c2_gapPositions, ?_⟩
  intro ts i
  have hlen : (timeGaps ts).length = ts.length - 1 := by
    simp only [timeGaps, List.length_zipWith, List.length_tail]
    omega
  constructor
  · intro h
    have hm := List.mem_filter.mp h
    have hi : i < (timeGaps ts).length := List.mem_range.mp hm.1
    have hi1 : i + 1 < ts.length := by omega
    have hgt := of_decide_eq_true hm.2
    rw [timeGaps_getD ts i hi1] at hgt
    exact ⟨hi1, hgt⟩
  · rintro ⟨hi1, hgt⟩
    have hi : i < (timeGaps ts).length := by omega
    exact List.mem_filter.mpr ⟨List.mem_range.mpr hi,
      decide_eq_true (by rw [timeGaps_getD ts i hi1]; exact hgt)⟩

/-- Concrete run of the amended C2: delta position 0 (the jump from 0.0 to
1.0) is flagged as a gap. -/
theorem c2_gap_detection_amended_witness :
    (0 : ℕ) ∈ gapPositions c2Times :=
  (c2_gap_detection_amended.2.2.2 c2Times 0).mpr
    ⟨by simp [c2Times], by rw [c2_threshold]; norm_num [c2Times]⟩

/-!
## pyshark-based analyzer (`analyze_pcapng.py`, `main` lines 26-138)

A captured packet carries an optional timestamp (`none` models both a
missing `sniff_timestamp` and a value `float()` rejects), optional MAC
strings and the decoded UDP payload text (empty when absent). The loop
threads the normalization anchor; on a missing/invalid timestamp it
executes `break`, ending the run.
-/

/-- The marker list of `analyze_pcapng.py` line 7. -/
def SUBSTRINGS_png : List (List Char) :=
  ["ng -notify ".toList, "ng -p ".toList, "ng -d ".toList, "ng -s ".toList,
    "App".toList]

/-- The literal prefix required before a record is written
(`analyze_pcapng.py` line 127). -/
def ngmLead : List Char := "ng -m --cl 0.1 [".toList

/-- One captured packet as the loop reads it. -/
structure PngPacket where
  sniff_ts : Option ℚ
  src_mac : Option (List Char)
  dst_mac : Option (List Char)
  payload : List Char
  deriving DecidableEq

/-- One written output record. -/
structure PngRec where
  time : ℚ
  src_mac : Option (List Char)
  dst_mac : Option (List Char)
  data : List Char
  deriving DecidableEq

/-- Lines 91-94: drop the first two characters when length ≥ 2. -/
def cutPayload (p : PngPacket) : List Char :=
  if 2 ≤ p.payload.length then p.payload.drop 2 else p.payload

/-- Lines 108-118: clean, relocate to the first command pattern (or
left-strip), clean again. -/
def recoveredDataPng (ds : List Char) : List Char :=
  cleanString (relocate (cleanString ds))

/-- Lines 96-129 for one packet with normalized time `norm`: marker
filter, framing recovery, and the `ng -m --cl 0.1 [` prefix gate. -/
def pngEmit (norm : ℚ) (p : PngPacket) : Option PngRec :=
  let ds := cutPayload p
  match findMarker SUBSTRINGS_png ds with
  | none => none
  | some _ =>
      let c3 := recoveredDataPng ds
      if ngmLead.isPrefixOf c3 then some ⟨norm, p.src_mac, p.dst_mac, c3⟩
      else none

/-- Outcome of one loop iteration. -/
inductive PngStepOut where
  | stop
  | skip
  | emit (r : PngRec)
  deriving DecidableEq

/-- One iteration of the packet loop (lines 47-129): `stop` on a
missing/invalid timestamp (line 80's `break`), otherwise normalize the
time and run the emission pipeline. -/
def pngStep (first : Option ℚ) (p : PngPacket) : Option ℚ × PngStepOut :=
  match p.sniff_ts with
  | none => (first, .stop)
  | some t =>
      match first with
      | none =>
          (some t, match pngEmit 0 p with
                   | none => .skip
                   | some r => .emit r)
      | some a =>
          (some a, match pngEmit (t - a) p with
                   | none => .skip
                   | some r => .emit r)

/-- The packet loop: list of written records, in order. `break` discards
the rest of the capture. -/
def pngRun (first : Option ℚ) : List PngPacket → List PngRec
  | [] => []
  | p :: rest =>
      match pngStep first p with
      | (_, .stop) => []
      | (f, .skip) => pngRun f rest
      | (f, .emit r) => r :: pngRun f rest

/-- C9. Once a packet with a missing or non-float-convertible timestamp is
reached, the loop terminates there: the records written for the stream are
exactly those written up to and including that packet, whatever packets
follow. -/
theorem c9_stop_on_bad_timestamp (first : Option ℚ) (pre : List PngPacket)
    (p : PngPacket) (post : List PngPacket) (h : p.sniff_ts = none) :
    pngRun first (pre ++ p :: post) = pngRun first (pre ++ [p]) := by
  induction pre generalizing first with
  | nil =>
      simp only [List.nil_append, pngRun, pngStep, h]
  | cons q rest ih =>
      simp only [List.cons_append, pngRun]
      cases hq : pngStep first q with
      | mk f out =>
          cases out with
          | stop => rfl
          | skip => exact ih f
          | emit r => exact congrArg (r :: ·) (ih f)

/-- A packet with payload matching a marker and a valid timestamp. -/
def pngGood : PngPacket :=
  ⟨some 1, none, none, "xxng -m --cl 0.1 [ abc ]".toList⟩

/-- A packet whose timestamp is missing/invalid. -/
def pngBad : PngPacket :=
  ⟨none, none, none, "xxng -m --cl 0.1 [ def ]".toList⟩

/-- Concrete run of C9: the packets after the bad-timestamp packet change
nothing — the run stops there. -/
theorem c9_stop_on_bad_timestamp_witness :
    pngRun none ([pngGood] ++ pngBad :: [pngGood]) = pngRun none ([pngGood] ++ [pngBad]) :=
  c9_stop_on_bad_timestamp none [pngGood] pngBad [pngGood] rfl

lemma pngEmit_data_lead (norm : ℚ) (p : PngPacket) (r : PngRec)
    (h : pngEmit norm p = some r) : ngmLead.isPrefixOf r.data = true := by
  simp only [pngEmit] at h
  split at h
  · exact absurd h (by simp)
  · split at h
    · next hpref =>
        have hr := Option.some.inj h
        subst hr
        exact hpref
    · exact absurd h (by simp)

/-- C10. A record is written by the pyshark analyzer only when its cleaned
data starts with the literal `"ng -m --cl 0.1 ["`: every record of every
run carries that prefix, and a packet whose payload matches a configured
marker but whose recovered data lacks the prefix is silently dropped
(emits nothing). -/
theorem c10_ngm_prefix_gate :
    (∀ (first : Option ℚ) (ps : List PngPacket) (r : PngRec),
        r ∈ pngRun first ps → ngmLead.isPrefixOf r.data = true)
    ∧ (∀ (norm : ℚ) (p : PngPacket),
        findMarker SUBSTRINGS_png (cutPayload p) ≠ none →
        ngmLead.isPrefixOf (recoveredDataPng (cutPayload p)) = false →
        pngEmit norm p = none) := by
  constructor
  · intro first ps
    induction ps generalizing first with
    | nil => intro r h; simp [pngRun] at h
    | cons p rest ih =>
        intro r h
        rw [pngRun] at h
        cases hts : p.sniff_ts with
        | none => rw [pngStep.eq_def, hts] at h; simp at h
        | some t =>
            cases hf : first with
            | none =>
                rw [pngStep.eq_def, hts, hf] at h
                simp only at h
                cases he : pngEmit 0 p with
                | none =>
                    rw [he] at h
                    exact ih (some t) r h
                | some r0 =>
                    rw [he] at h
                    rcases List.mem_cons.mp h with h1 | h2
                    · subst h1
                      exact pngEmit_data_lead 0 p r he
                    · exact ih (some t) r h2
            | some a =>
                rw [pngStep.eq_def, hts, hf] at h
                simp only at h
                cases he : pngEmit (t - a) p with
                | none =>
                    rw [he] at h
                    exact ih (some a) r h
                | some r0 =>
                    rw [he] at h
                    rcases List.mem_cons.mp h with h1 | h2
                    · subst h1
                      exact pngEmit_data_lead (t - a) p r he
                    · exact ih (some a) r h2
  · intro norm p hm hpref
    simp only [pngEmit]
    cases hfm : findMarker SUBSTRINGS_png (cutPayload p) with
    | none => rfl
    | some m =>
        simp only
        rw [if_neg (by simp [hpref])]

/-- Concrete run of C10: a payload matching the marker `"ng -d "` whose
data does not start with `"ng -m --cl 0.1 ["` emits nothing. -/
theorem c10_ngm_prefix_gate_witness :
    pngEmit 0 ⟨some 1, none, none, "xxng -d hello".toList⟩ = none :=
  c10_ngm_prefix_gate.2 0 ⟨some 1, none, none, "xxng -d hello".toList⟩
    (by decide) (by decide)

end Ng5G
